import Mathlib

/-!
Shallow embedding of the read-planning layer of `StorageCnchHive.cpp`
(hash-index extraction, partition selection, the partition-count ceiling,
directory-lister selection, file-listing orchestration, bucket resolution
and bucket pruning), together with theorems about the embedded functions.

File paths are modelled as `List Char`; machine integers as `Nat`.
-/

namespace CnchHive

/-- One decimal-digit step of `std::stoi` on an all-digit substring.
`std::stoi`'s `int`-range overflow (`std::out_of_range` for runs whose value
exceeds `INT_MAX`) is not modelled: the parse is the mathematical decimal
value of the digit run. -/
def parseDigits (ds : List Char) : Nat :=
  ds.foldl (fun acc c => acc * 10 + (c.toNat - Char.toNat '0')) 0

/-- The maximal run of consecutive decimal digits of `s` starting at `pos`
(the `for (r = pos; isdigit(s[r]); ++r)` loop of the source lambda). -/
def digitRunFrom (s : List Char) (pos : Nat) : List Char :=
  (s.drop pos).takeWhile Char.isDigit

/-- The lambda `get_hash_index_from_position` of `StorageCnchHive.cpp`:
scan the maximal digit run at `pos`; if non-empty, parse it, else nothing. -/
def get_hash_index_from_position (s : List Char) (pos : Nat) : Option Nat :=
  let run := digitRunFrom s pos
  if run.isEmpty then none else some (parseDigits run)

/-- Index of the last occurrence of `t` in `s`
(`std::string::find_last_of(t)`), `none` for `npos`. -/
def findLastOf : List Char → Char → Option Nat
  | [], _ => none
  | c :: cs, t =>
    match findLastOf cs t with
    | some i => some (i + 1)
    | none => if c = t then some 0 else none

/-- The scan position `find_last_of(t) + 1` used by `get_file_hash_index`.
When `t` does not occur, `find_last_of` returns `npos` (`SIZE_MAX`) and the
unsigned `+ 1` wraps to position `0`. -/
def scanPos (s : List Char) (t : Char) : Nat :=
  match findLastOf s t with
  | some i => i + 1
  | none => 0

/-- Function `get_file_hash_index` of `StorageCnchHive.cpp`: first the digit run at
`find_last_of('_') + 1`, then, if that run is empty, the digit run at
`find_last_of('/') + 1`, else nothing. -/
def get_file_hash_index (s : List Char) : Option Nat :=
  match get_hash_index_from_position s (scanPos s '_') with
  | some r => some r
  | none =>
    match get_hash_index_from_position s (scanPos s '/') with
    | some r => some r
    | none => none

/-- Hash-index extraction exactly as the specification words it: rule 1
reads the digit run immediately after the last `_` (so when the path has no
`_` at all, rule 1 yields nothing); only if rule 1's run is empty does rule 2
read the digit run immediately after the last `/` (again yielding nothing
when the path has no `/`); else the result is `none`.  To be compared with
the source function `get_file_hash_index`, whose scans wrap to position 0
when the separator is absent. -/
def specHashIndex (s : List Char) : Option Nat :=
  let tier1 :=
    match findLastOf s '_' with
    | some i => get_hash_index_from_position s (i + 1)
    | none => none
  match tier1 with
  | some r => some r
  | none =>
    match findLastOf s '/' with
    | some i => get_hash_index_from_position s (i + 1)
    | none => none

/-! ### Bucket pruning (`prepareReadContext`, lines 275-286) -/

/-- The `std::remove_if` predicate of the bucket-pruning step: keep every
file when no required bucket was resolved; otherwise remove a file exactly
when its path-derived hash index is present and differs from the required
bucket. -/
def removeFilePred (requiredBucket : Option Nat) (path : List Char) : Bool :=
  match requiredBucket with
  | none => false
  | some b =>
    match get_file_hash_index path with
    | none => false
    | some h => h != b

/-- The `remove_if` + `erase` pair: the files whose removal predicate is false. -/
def pruneBucketFiles (requiredBucket : Option Nat) (files : List (List Char)) :
    List (List Char) :=
  files.filter (fun f => !removeFilePred requiredBucket f)

/-! ### Partition selection (`selectPartitions`, lines 424-465) -/

/-- Function `StorageCnchHive::selectPartitions`.  `metastoreParts` is whatever
`getPartitionsByFilter` returned for the (advisory) filter string, `load`
the `HivePartition::load` conversion, and `canBePruned` the local
`PartitionPruner` verdict.  A table without a partition key yields the
single synthetic whole-table partition without consulting the metastore;
otherwise each returned partition is loaded and kept unless the pruner is
engaged (`use_hive_partition_filter`) and proves it unsatisfiable. -/
def selectPartitions {ρ π : Type} (hasPartitionKey : Bool)
    (wholeTablePartition : π) (metastoreParts : List ρ) (load : ρ → π)
    (useHivePartitionFilter : Bool) (canBePruned : π → Bool) : List π :=
  if hasPartitionKey = false then [wholeTablePartition]
  else
    (metastoreParts.map load).filter
      (fun p => !(useHivePartitionFilter && canBePruned p))

/-! ### Directory-lister selection (`getDirectoryLister`, lines 663-681) -/

inductive FileFormat where
  | PARQUET
  | ORC
  | HUDI_COW
deriving DecidableEq, Repr

inductive HiveError where
  | tooManyPartitions (current limit : Nat)
  | unknownFormat (fmt : String)
deriving DecidableEq, Repr

/-- Function `StorageCnchHive::getDirectoryLister`: the exact string match on the
table's declared input format, an `UNKNOWN_FORMAT` error otherwise.  The
lister object itself is abstracted to the format tag it is constructed
with. -/
def getDirectoryLister (inputFormat : String) : Except HiveError FileFormat :=
  if inputFormat = "org.apache.hudi.hadoop.HoodieParquetInputFormat" then
    Except.ok FileFormat.HUDI_COW
  else if inputFormat = "org.apache.hadoop.hive.ql.io.parquet.MapredParquetInputFormat" then
    Except.ok FileFormat.PARQUET
  else if inputFormat = "org.apache.hadoop.hive.ql.io.orc.OrcInputFormat" then
    Except.ok FileFormat.ORC
  else Except.error (HiveError.unknownFormat inputFormat)

/-! ### File-listing orchestration (`prepareReadContext`, lines 238-272) -/

/-- Condition for the sequential listing path:
`num_streams <= 1 || partitions.size() == 1`. -/
def sequentialListing {π : Type} (numStreams : Nat) (partitions : List π) : Bool :=
  numStreams ≤ 1 || partitions.length == 1

/-- The bound `num_threads = std::min(size_t(num_streams), partitions.size())`, the
bound on concurrent listing workers. -/
def numListingThreads (numStreams partitionCount : Nat) : Nat :=
  min numStreams partitionCount

/-- The order in which partition listings complete and append their files.
On the sequential path this is the partition order itself; on the concurrent
path it is `schedule`, an arbitrary completion order of the pool's tasks
(each append runs under the mutex, so one partition's files stay
contiguous). -/
def listedPartitions {π : Type} (numStreams : Nat) (partitions schedule : List π) :
    List π :=
  if sequentialListing numStreams partitions then partitions else schedule

/-- The aggregated `hive_files` collection produced by the listing loop. -/
def listPartitionFiles {π φ : Type} (numStreams : Nat)
    (partitions schedule : List π) (lister : π → List φ) : List φ :=
  (listedPartitions numStreams partitions schedule).flatMap lister

/-! ### Bucket resolution (`getSelectedBucketNumber`, lines 467-524) -/

/-- A literal field value (`DB::Field`) as far as the resolver needs it. -/
inductive HVal where
  | str : String → HVal
  | num : Int → HVal
deriving DecidableEq, Repr

/-- The condition tree handed to the resolver (`optimizer.cluster_key_conds`):
literals, column identifiers and function applications
(`ASTFunction{name, arguments}`). -/
inductive HAst where
  | lit : HVal → HAst
  | ident : String → HAst
  | func : String → List HAst → HAst

/-- Semantics of `evaluateConstantExpressionOrIdentifierAsLiteral`: an identifier becomes
its name as a string literal, a literal stays itself.  Constant folding of
function expressions (and the exception raised when an argument is not a
constant expression) is not modelled: such arguments yield no binding. -/
def asLiteralVal : HAst → Option HVal
  | HAst.lit v => some v
  | HAst.ident n => some (HVal.str n)
  | HAst.func _ _ => none

/-- The single-row binding state: the block's columns in declaration order,
each either still empty (`none`) or holding its inserted value. -/
abbrev Bindings := List (String × Option HVal)

/-- The insertion step: when the block has a column of that name, look up
its first position with `getPositionByName` and, only when that column is
still empty, insert the value into it. -/
def bindFirstEmpty (name : String) (v : HVal) : Bindings → Bindings
  | [] => []
  | (n, w) :: rest =>
    if n = name then
      match w with
      | none => (n, some v) :: rest
      | some u => (n, some u) :: rest
    else (n, w) :: bindFirstEmpty name v rest

/-- The `equals` leaf of `parse_cluster_by_cond`: evaluate both arguments as
literals, read the column name out of the first (`safeGet<String>`), and
insert the value into that column if it is still empty. -/
def applyEquals (c v : HAst) (st : Bindings) : Bindings :=
  match asLiteralVal c, asLiteralVal v with
  | some (HVal.str name), some value => bindFirstEmpty name value st
  | _, _ => st

mutual

/-- The recursive lambda `parse_cluster_by_cond`: an `equals` node with
exactly two arguments binds, an `and` node recurses into its children,
every other node is ignored (`equals` of another arity also falls through,
since the source tests `name == "equals" && children.size() == 2` first and
`name == "and"` second). -/
def parseCond : HAst → Bindings → Bindings
  | HAst.lit _, st => st
  | HAst.ident _, st => st
  | HAst.func name args, st =>
    if name = "equals" then
      match args with
      | [c, v] => applyEquals c v st
      | _ => st
    else if name = "and" then parseCondList args st
    else st

/-- The `for (child : func->arguments->children) parse_cluster_by_cond(child)`
loop of the `and` case. -/
def parseCondList : List HAst → Bindings → Bindings
  | [], st => st
  | t :: ts, st => parseCondList ts (parseCond t st)

end

/-- The block built from the cluster-by expression's required input columns,
every column initially empty. -/
def initBindings (requiredCols : List String) : Bindings :=
  requiredCols.map (fun c => (c, none))

/-- `StorageCnchHive::getSelectedBucketNumber`.  `clusterByEval` abstracts
`cluster_by_expression->execute(block)` followed by `get64(0)` on the result
column (the `javaHash`/`hiveModulo` composition built at table
registration).  Not a bucket table or no cluster-key conditions: `none`;
any required column still empty after the traversal: `none`; otherwise the
evaluated bucket number. -/
def getSelectedBucketNumber (isBucketTable : Bool) (clusterKeyConds : Option HAst)
    (requiredCols : List String) (clusterByEval : Bindings → Nat) : Option Nat :=
  if isBucketTable = false then none
  else
    match clusterKeyConds with
    | none => none
    | some conds =>
      let st := parseCond conds (initBindings requiredCols)
      if st.any (fun p => p.2.isNone) then none
      else some (clusterByEval st)

/-- First binding of column `c` in the state: the value slot of the first
column named `c` (`getPositionByName` order). -/
def firstBinding (st : Bindings) (c : String) : Option (Option HVal) :=
  match st with
  | [] => none
  | (n, w) :: rest => if n = c then some w else firstBinding rest c

/-! ### The read-planning pipeline (`prepareReadContext`, lines 214-293) -/

/-- The test `settings.max_partitions_to_read > 0 && partitions.size() > max`. -/
def exceedsPartitionLimit (maxPartitionsToRead partitionCount : Nat) : Bool :=
  0 < maxPartitionsToRead && maxPartitionsToRead < partitionCount

instance {ε α : Type} [DecidableEq ε] [DecidableEq α] : DecidableEq (Except ε α) :=
  fun x y =>
    match x, y with
    | Except.ok a, Except.ok b =>
      if h : a = b then isTrue (by rw [h])
      else isFalse (by intro hc; injection hc; contradiction)
    | Except.error a, Except.error b =>
      if h : a = b then isTrue (by rw [h])
      else isFalse (by intro hc; injection hc; contradiction)
    | Except.ok _, Except.error _ => isFalse (by intro hc; cases hc)
    | Except.error _, Except.ok _ => isFalse (by intro hc; cases hc)

/-- Observable outcome of one `prepareReadContext` call: the returned
result (or thrown error), the partitions whose listing I/O actually ran,
and what was registered with the execution resource context
(`collectResource`: the cloud table alias and the final file set). -/
structure PrepareOutcome (π : Type) where
  result : Except HiveError (List (List Char) × String)
  listed : List π
  registered : Option (String × List (List Char))
deriving DecidableEq, Repr

/-- Function `StorageCnchHive::prepareReadContext` after partition selection, in
source order: the partition-count ceiling, lister construction, the
(sequential or concurrent) listing loop, optional bucket pruning, and
`collectResource`.  `partitions` is the `selectPartitions` result,
`schedule` the completion order of the concurrent listing tasks, `lister`
the per-format directory lister, and the cluster-by arguments feed
`getSelectedBucketNumber` exactly as in the source. -/
def prepareReadContextM {π : Type} (maxPartitionsToRead : Nat)
    (useClusterKeyFilter isBucketTable : Bool) (inputFormat : String)
    (numStreams : Nat) (partitions schedule : List π)
    (lister : FileFormat → π → List (List Char))
    (clusterKeyConds : Option HAst) (requiredCols : List String)
    (clusterByEval : Bindings → Nat) (tableName txnId : String) :
    PrepareOutcome π :=
  if exceedsPartitionLimit maxPartitionsToRead partitions.length then
    { result := Except.error (HiveError.tooManyPartitions partitions.length maxPartitionsToRead)
      listed := []
      registered := none }
  else
    match getDirectoryLister inputFormat with
    | Except.error e => { result := Except.error e, listed := [], registered := none }
    | Except.ok fmt =>
      let files := listPartitionFiles numStreams partitions schedule (lister fmt)
      let final :=
        if isBucketTable && useClusterKeyFilter then
          pruneBucketFiles
            (getSelectedBucketNumber isBucketTable clusterKeyConds requiredCols clusterByEval)
            files
        else files
      let cloudName := tableName ++ "_" ++ txnId
      { result := Except.ok (final, cloudName)
        listed := listedPartitions numStreams partitions schedule
        registered := some (cloudName, final) }

/-! ## Helper lemmas -/

theorem findLastOf_eq_none {s : List Char} {c : Char} (h : c ∉ s) :
    findLastOf s c = none := by
  induction s with
  | nil => rfl
  | cons a as ih =>
    have h1 : c ≠ a ∧ c ∉ as := by simpa [not_or] using h
    unfold findLastOf
    rw [ih h1.2]
    exact if_neg (fun hh => h1.1 hh.symm)

theorem findLastOf_isSome {s : List Char} {c : Char} (h : c ∈ s) :
    ∃ i, findLastOf s c = some i := by
  induction s with
  | nil => exact absurd h (List.not_mem_nil c)
  | cons a as ih =>
    cases hfl : findLastOf as c with
    | some i => exact ⟨i + 1, by unfold findLastOf; rw [hfl]⟩
    | none =>
      rcases List.mem_cons.mp h with hc | hc
      · exact ⟨0, by unfold findLastOf; rw [hfl]; exact if_pos hc.symm⟩
      · rcases ih hc with ⟨i, hi⟩
        rw [hfl] at hi
        cases hi

/-! ## Claims about hash-index extraction -/

/-- C1 (counterexample): on the second spec example path the digit run
after the last `_` is empty (`erdcf` follows it), so the slash rule applies
and parses `000003`, giving 3 — not the claimed 33. -/
theorem claim_C1_counterexample :
    get_file_hash_index
        ("/000003_0_66add4ef-d1fc-4015-87b4-6962de044323_20240229_033029_00033_erdcf".toList)
      ≠ some 33 ∧
    get_file_hash_index
        ("/000003_0_66add4ef-d1fc-4015-87b4-6962de044323_20240229_033029_00033_erdcf".toList)
      = some 3 := by
  exact ⟨by decide, by decide⟩

/-- C1 (amended): `get_file_hash_index` returns 3 for
`part-00000-...-e9f4de61c887_00003.c000`, 3 (not 33) for
`/000003_0_...-033029_00033_erdcf` — the last-underscore run is empty there,
so the slash rule wins and parses `000003` — and `none` for
`no_digits_here`. -/
theorem claim_C1 :
    get_file_hash_index
        ("part-00000-5cf7580f-a3f6-4beb-90a6-e9f4de61c887_00003.c000".toList)
      = some 3 ∧
    get_file_hash_index
        ("/000003_0_66add4ef-d1fc-4015-87b4-6962de044323_20240229_033029_00033_erdcf".toList)
      = some 3 ∧
    get_file_hash_index ("no_digits_here".toList) = none := by
  exact ⟨by decide, by decide, by decide⟩

/-- C2 (counterexample): on a path with neither `_` nor `/` the source
function scans from position 0 (`find_last_of` returns `npos` and `npos + 1`
wraps to 0) and reads the leading digit run, while the claim's two-tier
heuristic finds both runs empty and yields `none`. -/
theorem claim_C2_counterexample :
    get_file_hash_index ("123".toList) ≠ specHashIndex ("123".toList) ∧
    get_file_hash_index ("123".toList) = some 123 ∧
    specHashIndex ("123".toList) = none := by
  exact ⟨by decide, by decide, by decide⟩

/-- C2 (amended): for every path that contains at least one `_` and at
least one `/`, `get_file_hash_index` implements exactly the claim's
two-tier heuristic — the digit run immediately after the last `_` first,
the digit run immediately after the last `/` only if the first run is
empty, `none` if both are empty.  (When a separator is absent, the source's
scan instead wraps to position 0 of the whole path.) -/
theorem claim_C2 (s : List Char) (hu : '_' ∈ s) (hs : '/' ∈ s) :
    get_file_hash_index s = specHashIndex s := by
  rcases findLastOf_isSome hu with ⟨i, hi⟩
  rcases findLastOf_isSome hs with ⟨j, hj⟩
  simp [get_file_hash_index, specHashIndex, scanPos, hi, hj]
  cases h1 : get_hash_index_from_position s (i + 1) <;>
    cases h2 : get_hash_index_from_position s (j + 1) <;> simp

/-- C2 (witness). -/
theorem claim_C2_witness :
    '_' ∈ ("dir/file_7".toList) ∧ '/' ∈ ("dir/file_7".toList) ∧
    get_file_hash_index ("dir/file_7".toList) = specHashIndex ("dir/file_7".toList) :=
  ⟨by decide, by decide, claim_C2 ("dir/file_7".toList) (by decide) (by decide)⟩

/-- C9: when a path contains no `_`, the first-tier scan starts at position
0 of the whole path (`find_last_of` gives `npos`, and `npos + 1` wraps to
0), so a path beginning with a decimal digit and containing no underscore
yields its leading digit run as index; the `/`-based second tier wraps the
same way. -/
theorem claim_C9 (s : List Char) :
    ('_' ∉ s → scanPos s '_' = 0) ∧
    ('/' ∉ s → scanPos s '/' = 0) ∧
    (∀ c cs, s = c :: cs → '_' ∉ s → c.isDigit = true →
      get_file_hash_index s = some (parseDigits (s.takeWhile Char.isDigit))) := by
  refine ⟨?_, ?_, ?_⟩
  · intro h; simp [scanPos, findLastOf_eq_none h]
  · intro h; simp [scanPos, findLastOf_eq_none h]
  · intro c cs hs h hd
    subst hs
    have h0 : scanPos (c :: cs) '_' = 0 := by
      simp [scanPos, findLastOf_eq_none h]
    simp [get_file_hash_index, h0, get_hash_index_from_position, digitRunFrom,
      List.takeWhile_cons_of_pos hd]

/-- C9 (witness). -/
theorem claim_C9_witness :
    get_file_hash_index ("42x".toList)
      = some (parseDigits (("42x".toList).takeWhile Char.isDigit)) :=
  (claim_C9 ("42x".toList)).2.2 '4' ['2', 'x'] (by decide) (by decide) (by decide)

/-! ## Claims about bucket pruning -/

/-- C3: with a resolved required bucket `b`, a file of the listed set is
removed by the pruning step exactly when its path-derived hash index is
known and differs from `b`; a file whose index is unknown is retained for
every required-bucket value; and with no resolved bucket nothing is
removed. -/
theorem claim_C3 (b : Nat) (files : List (List Char)) (f : List Char)
    (hf : f ∈ files) :
    ((f ∉ pruneBucketFiles (some b) files) ↔
      (∃ h, get_file_hash_index f = some h ∧ h ≠ b)) ∧
    (∀ req, get_file_hash_index f = none → f ∈ pruneBucketFiles req files) ∧
    pruneBucketFiles none files = files := by
  refine ⟨?_, ?_, ?_⟩
  · constructor
    · intro hout
      have hpred : removeFilePred (some b) f = true := by
        by_contra hc
        have hkeep : (!removeFilePred (some b) f) = true := by
          cases hb : removeFilePred (some b) f
          · rfl
          · exact absurd hb hc
        exact hout (List.mem_filter.mpr ⟨hf, hkeep⟩)
      revert hpred
      unfold removeFilePred
      cases hh : get_file_hash_index f with
      | none => intro hpred; cases hpred
      | some h =>
        intro hpred
        exact ⟨h, rfl, by simpa using hpred⟩
    · rintro ⟨h, hh, hne⟩ hin
      have hkeep := (List.mem_filter.mp hin).2
      rw [removeFilePred] at hkeep
      rw [hh] at hkeep
      simp [hne] at hkeep
  · intro req hh
    refine List.mem_filter.mpr ⟨hf, ?_⟩
    cases req with
    | none => rfl
    | some b' => simp [removeFilePred, hh]
  · simp [pruneBucketFiles, removeFilePred]

/-- C3 (witness): with required bucket 0, the file `a_1` (index 1) is
removed and the file `b` (no derivable index) is retained. -/
theorem claim_C3_witness :
    ("b".toList ∈
      pruneBucketFiles (some 0) ["a_1".toList, "b".toList]) ∧
    ("a_1".toList ∉
      pruneBucketFiles (some 0) ["a_1".toList, "b".toList]) :=
  ⟨(claim_C3 0 ["a_1".toList, "b".toList] ("b".toList) (by decide)).2.1
      (some 0) (by decide),
    (claim_C3 0 ["a_1".toList, "b".toList] ("a_1".toList) (by decide)).1.mpr
      ⟨1, by decide, by decide⟩⟩

/-! ## Claims about the bucket resolver -/

/-- State `st'` refines `st`: same columns in the same order, and every value
already inserted in `st` is still there in `st'` (the traversal never
overwrites or drops a binding, it only fills empty slots). -/
def BindingExtends (st st' : Bindings) : Prop :=
  List.Forall₂ (fun p q => p.1 = q.1 ∧ ∀ w, p.2 = some w → q.2 = some w) st st'

theorem bindingExtends_refl (st : Bindings) : BindingExtends st st := by
  induction st with
  | nil => exact List.Forall₂.nil
  | cons p rest ih => exact List.Forall₂.cons ⟨rfl, fun _ h => h⟩ ih

theorem bindingExtends_trans {s t u : Bindings}
    (h1 : BindingExtends s t) (h2 : BindingExtends t u) : BindingExtends s u := by
  induction h1 generalizing u with
  | nil => cases h2; exact List.Forall₂.nil
  | cons hpq _ ih =>
    cases h2 with
    | cons hqr htail =>
      exact List.Forall₂.cons
        ⟨hpq.1.trans hqr.1, fun w hw => hqr.2 w (hpq.2 w hw)⟩ (ih htail)

theorem bindFirstEmpty_extends (name : String) (v : HVal) (st : Bindings) :
    BindingExtends st (bindFirstEmpty name v st) := by
  induction st with
  | nil => exact List.Forall₂.nil
  | cons p rest ih =>
    rcases p with ⟨n, w⟩
    unfold bindFirstEmpty
    by_cases hn : n = name
    · rw [if_pos hn]
      cases w with
      | none =>
        exact List.Forall₂.cons ⟨rfl, fun u h => by cases h⟩ (bindingExtends_refl rest)
      | some u =>
        exact List.Forall₂.cons ⟨rfl, fun _ h => h⟩ (bindingExtends_refl rest)
    · rw [if_neg hn]
      exact List.Forall₂.cons ⟨rfl, fun _ h => h⟩ ih

theorem applyEquals_extends (c v : HAst) (st : Bindings) :
    BindingExtends st (applyEquals c v st) := by
  unfold applyEquals
  cases asLiteralVal c with
  | none => exact bindingExtends_refl st
  | some a =>
    cases a with
    | num _ =>
      cases asLiteralVal v <;> exact bindingExtends_refl st
    | str name =>
      cases asLiteralVal v with
      | none => exact bindingExtends_refl st
      | some value => exact bindFirstEmpty_extends name value st

mutual

theorem parseCond_extends (t : HAst) (st : Bindings) :
    BindingExtends st (parseCond t st) := by
  cases t with
  | lit v => exact bindingExtends_refl st
  | ident n => exact bindingExtends_refl st
  | func name args =>
    show BindingExtends st (parseCond (HAst.func name args) st)
    unfold parseCond
    by_cases h1 : name = "equals"
    · rw [if_pos h1]
      match args with
      | [] => exact bindingExtends_refl st
      | [c] => exact bindingExtends_refl st
      | c :: v :: rest =>
        cases rest with
        | nil => exact applyEquals_extends c v st
        | cons r rs => exact bindingExtends_refl st
    · rw [if_neg h1]
      by_cases h2 : name = "and"
      · rw [if_pos h2]
        exact parseCondList_extends args st
      · rw [if_neg h2]
        exact bindingExtends_refl st

theorem parseCondList_extends (ts : List HAst) (st : Bindings) :
    BindingExtends st (parseCondList ts st) := by
  cases ts with
  | nil => exact bindingExtends_refl st
  | cons t rest =>
    show BindingExtends st (parseCondList (t :: rest) st)
    unfold parseCondList
    exact bindingExtends_trans (parseCond_extends t st)
      (parseCondList_extends rest (parseCond t st))

end

theorem firstBinding_extends {st st' : Bindings} {c : String} {w : HVal}
    (hext : BindingExtends st st') (h : firstBinding st c = some (some w)) :
    firstBinding st' c = some (some w) := by
  induction hext with
  | nil => cases h
  | cons hpq htail ih =>
    rename_i p q ps qs
    unfold firstBinding at h ⊢
    by_cases hc : p.1 = c
    · rw [if_pos hc] at h
      rw [if_pos (hpq.1.symm.trans hc)]
      have hw : p.2 = some w := by injection h
      rw [hpq.2 w hw]
    · rw [if_neg hc] at h
      rw [if_neg (fun hh => hc (hpq.1.trans hh))]
      exact ih h

theorem bindFirstEmpty_firstBinding {st : Bindings} {c : String} (v : HVal)
    (h : firstBinding st c = some none) :
    firstBinding (bindFirstEmpty c v st) c = some (some v) := by
  induction st with
  | nil => cases h
  | cons p rest ih =>
    rcases p with ⟨n, w⟩
    unfold firstBinding at h
    unfold bindFirstEmpty
    by_cases hn : n = c
    · rw [if_pos hn] at h
      have hw : w = none := Option.some.inj h
      subst hw
      rw [if_pos hn]
      unfold firstBinding
      rw [if_pos hn]
    · rw [if_neg hn] at h
      rw [if_neg hn]
      unfold firstBinding
      rw [if_neg hn]
      exact ih h

/-- C4: the bucket resolver descends only through `and` nodes (every other
function node, literal and identifier leaves the binding state untouched),
binds a cluster-by input column from an `equals(column, literal)` leaf with
the first binding winning (an existing first binding survives any further
traversal), and returns `none` — without error — whenever any required
input column is still unbound after the traversal, as well as for a
non-bucket table or absent cluster-key conditions. -/
theorem claim_C4 :
    (∀ (name : String) (args : List HAst) (st : Bindings),
      name ≠ "and" → name ≠ "equals" → parseCond (HAst.func name args) st = st) ∧
    (∀ (v : HVal) (st : Bindings), parseCond (HAst.lit v) st = st) ∧
    (∀ (n : String) (st : Bindings), parseCond (HAst.ident n) st = st) ∧
    (∀ (t : HAst) (st : Bindings) (c : String) (w : HVal),
      firstBinding st c = some (some w) →
      firstBinding (parseCond t st) c = some (some w)) ∧
    (∀ (c : String) (v : HVal) (st : Bindings),
      firstBinding st c = some none →
      firstBinding (parseCond (HAst.func "equals" [HAst.ident c, HAst.lit v]) st) c
        = some (some v)) ∧
    (∀ (conds : HAst) (cols : List String) (ev : Bindings → Nat),
      (parseCond conds (initBindings cols)).any (fun p => p.2.isNone) = true →
      getSelectedBucketNumber true (some conds) cols ev = none) ∧
    (∀ (conds : Option HAst) (cols : List String) (ev : Bindings → Nat),
      getSelectedBucketNumber false conds cols ev = none) := by
  refine ⟨?_, ?_, ?_, ?_, ?_, ?_, ?_⟩
  · intro name args st h2 h1
    unfold parseCond
    rw [if_neg h1, if_neg h2]
  · intro v st; rfl
  · intro n st; rfl
  · intro t st c w h
    exact firstBinding_extends (parseCond_extends t st) h
  · intro c v st h
    show firstBinding (bindFirstEmpty c v st) c = some (some v)
    exact bindFirstEmpty_firstBinding v h
  · intro conds cols ev h
    simp [getSelectedBucketNumber, h]
  · intro conds cols ev
    rfl

/-- C4 (witness): an `or` node is not descended, an already-bound column
survives a later duplicate `equals`, an `equals` leaf binds an empty
column, and a traversal leaving column `b` unbound makes the resolver
return `none` even though column `a` is bound. -/
theorem claim_C4_witness :
    parseCond (HAst.func "or" [HAst.ident "k"]) [("k", none)] = [("k", none)] ∧
    firstBinding
        (parseCond
          (HAst.func "and"
            [HAst.func "equals" [HAst.ident "k", HAst.lit (HVal.num 2)]])
          [("k", some (HVal.num 1))]) "k"
      = some (some (HVal.num 1)) ∧
    firstBinding
        (parseCond (HAst.func "equals" [HAst.ident "k", HAst.lit (HVal.num 2)])
          [("k", none)]) "k"
      = some (some (HVal.num 2)) ∧
    getSelectedBucketNumber true
        (some (HAst.func "equals" [HAst.ident "a", HAst.lit (HVal.num 1)]))
        ["a", "b"] (fun _ => 0)
      = none :=
  ⟨claim_C4.1 "or" [HAst.ident "k"] [("k", none)] (by decide) (by decide),
    claim_C4.2.2.2.1 _ [("k", some (HVal.num 1))] "k" (HVal.num 1) (by decide),
    claim_C4.2.2.2.2.1 "k" (HVal.num 2) [("k", none)] (by decide),
    claim_C4.2.2.2.2.2.1 _ ["a", "b"] (fun _ => 0) (by decide)⟩

/-! ## Claims about partition selection -/

/-- C6 (counterexample): for a table without a partition key,
`selectPartitions` returns the synthetic whole-table partition without
consulting the metastore, so its output is not a subset of the metastore's
reported partition set (here empty). -/
theorem claim_C6_counterexample :
    selectPartitions false (0 : Nat) ([] : List Nat) id true (fun _ => false)
      = [0] ∧
    (0 : Nat) ∉ (([] : List Nat).map id) := by
  exact ⟨by decide, by decide⟩

/-- C6 (amended): for every table that declares a partition key, every
partition returned by `selectPartitions` is (the load of) one of the
partitions reported by the metastore's `getPartitionsByFilter` call,
whatever filter string was sent and whether or not the local range pruner
was engaged. -/
theorem claim_C6 (ρ π : Type) (wholeTablePartition : π) (metastoreParts : List ρ)
    (load : ρ → π) (useHivePartitionFilter : Bool) (canBePruned : π → Bool)
    (p : π)
    (h : p ∈ selectPartitions true wholeTablePartition metastoreParts load
      useHivePartitionFilter canBePruned) :
    p ∈ metastoreParts.map load := by
  unfold selectPartitions at h
  rw [if_neg (by decide : ¬(true = false))] at h
  exact (List.mem_filter.mp h).1

/-- C6 (witness). -/
theorem claim_C6_witness :
    (1 : Nat) ∈ ([1, 2] : List Nat).map id :=
  claim_C6 Nat Nat 5 [1, 2] id false (fun _ => false) 1 (by decide)

/-! ## Claims about the listing orchestrator and the pipeline -/

/-- C7: listing a fixed partition set sequentially and listing it
concurrently — the concurrent completion order being any permutation of the
partitions, each partition's files appended atomically under the mutex —
produce the same file multiset; the sequential path is taken exactly when
the stream budget is at most 1 or only one partition exists; and the
concurrent worker count is bounded by the stream budget and by the
partition count. -/
theorem claim_C7 (π φ : Type) (numStreams : Nat) (partitions schedule : List π)
    (lister : π → List φ) (hperm : schedule.Perm partitions) :
    ((listPartitionFiles numStreams partitions schedule lister : List φ) : Multiset φ)
      = ((partitions.flatMap lister : List φ) : Multiset φ) ∧
    (sequentialListing numStreams partitions = true ↔
      numStreams ≤ 1 ∨ partitions.length = 1) ∧
    (numListingThreads numStreams partitions.length ≤ numStreams ∧
      numListingThreads numStreams partitions.length ≤ partitions.length) := by
  refine ⟨?_, ?_, Nat.min_le_left _ _, Nat.min_le_right _ _⟩
  · rw [Multiset.coe_eq_coe]
    unfold listPartitionFiles listedPartitions
    by_cases h : sequentialListing numStreams partitions = true
    · rw [if_pos h]
    · rw [if_neg h]
      exact hperm.flatMap_right lister
  · simp [sequentialListing]

/-- C7 (witness). -/
theorem claim_C7_witness :
    ((listPartitionFiles 8 [1, 2] [2, 1] (fun p => [p, p + 10]) : List Nat) : Multiset Nat)
      = ((([1, 2] : List Nat).flatMap (fun p => [p, p + 10]) : List Nat) : Multiset Nat) :=
  (claim_C7 Nat Nat 8 [1, 2] [2, 1] (fun p => [p, p + 10]) (by decide)).1

/-- Lemma: `getDirectoryLister` never throws the partition-limit error: its only
error is `unknownFormat`. -/
theorem getDirectoryLister_no_partition_error (s : String) (c l : Nat) :
    getDirectoryLister s ≠ Except.error (HiveError.tooManyPartitions c l) := by
  unfold getDirectoryLister
  split_ifs <;> simp

/-- C8: the lister selection maps exactly the Hudi copy-on-write, parquet
and ORC input classes to `HUDI_COW`, `PARQUET` and `ORC`; every other
input-format string is an `UNKNOWN_FORMAT` error; and that error aborts
planning before any partition listing runs and before anything is
registered with the resource context. -/
theorem claim_C8 :
    getDirectoryLister "org.apache.hudi.hadoop.HoodieParquetInputFormat"
      = Except.ok FileFormat.HUDI_COW ∧
    getDirectoryLister "org.apache.hadoop.hive.ql.io.parquet.MapredParquetInputFormat"
      = Except.ok FileFormat.PARQUET ∧
    getDirectoryLister "org.apache.hadoop.hive.ql.io.orc.OrcInputFormat"
      = Except.ok FileFormat.ORC ∧
    (∀ s : String,
      s ≠ "org.apache.hudi.hadoop.HoodieParquetInputFormat" →
      s ≠ "org.apache.hadoop.hive.ql.io.parquet.MapredParquetInputFormat" →
      s ≠ "org.apache.hadoop.hive.ql.io.orc.OrcInputFormat" →
      getDirectoryLister s = Except.error (HiveError.unknownFormat s)) ∧
    (∀ (π : Type) (maxPartitionsToRead : Nat) (uck ibt : Bool)
      (inputFormat : String) (ns : Nat) (parts sched : List π)
      (lister : FileFormat → π → List (List Char)) (ckc : Option HAst)
      (rc : List String) (ev : Bindings → Nat) (tn tx : String)
      (e : HiveError),
      getDirectoryLister inputFormat = Except.error e →
      exceedsPartitionLimit maxPartitionsToRead parts.length = false →
      prepareReadContextM maxPartitionsToRead uck ibt inputFormat ns parts sched
          lister ckc rc ev tn tx
        = { result := Except.error e, listed := [], registered := none }) := by
  refine ⟨rfl, rfl, rfl, ?_, ?_⟩
  · intro s h1 h2 h3
    unfold getDirectoryLister
    rw [if_neg h1, if_neg h2, if_neg h3]
  · intro π maxP uck ibt fmt ns parts sched lister ckc rc ev tn tx e hfmt hlim
    simp [prepareReadContextM, hlim, hfmt]

/-- C8 (witness). -/
theorem claim_C8_witness :
    getDirectoryLister "SequenceFileInputFormat"
      = Except.error (HiveError.unknownFormat "SequenceFileInputFormat") ∧
    prepareReadContextM 0 false false "SequenceFileInputFormat" 1
        ([3] : List Nat) [3] (fun _ _ => [['a']]) none [] (fun _ => 0) "t" "7"
      = { result := Except.error (HiveError.unknownFormat "SequenceFileInputFormat")
          listed := []
          registered := none } :=
  ⟨claim_C8.2.2.2.1 "SequenceFileInputFormat" (by decide) (by decide) (by decide),
    claim_C8.2.2.2.2 Nat 0 false false "SequenceFileInputFormat" 1 [3] [3]
      (fun _ _ => [['a']]) none [] (fun _ => 0) "t" "7"
      (HiveError.unknownFormat "SequenceFileInputFormat") (by decide) (by decide)⟩

/-- C5: with `max_partitions_to_read = N > 0`, a selected-partition count
above `N` makes the pipeline fail with `TOO_MANY_PARTITIONS` carrying the
actual count and the limit `N`; with `N = 0` no partition-limit error can
occur; and whenever the pipeline succeeds, the partitions actually listed
are a permutation of the whole selected set — nothing is truncated
silently. -/
theorem claim_C5 (π : Type) (maxPartitionsToRead : Nat) (uck ibt : Bool)
    (inputFormat : String) (ns : Nat) (parts sched : List π)
    (lister : FileFormat → π → List (List Char)) (ckc : Option HAst)
    (rc : List String) (ev : Bindings → Nat) (tn tx : String) :
    (0 < maxPartitionsToRead → maxPartitionsToRead < parts.length →
      (prepareReadContextM maxPartitionsToRead uck ibt inputFormat ns parts sched
          lister ckc rc ev tn tx).result
        = Except.error (HiveError.tooManyPartitions parts.length maxPartitionsToRead)) ∧
    (∀ c l,
      (prepareReadContextM 0 uck ibt inputFormat ns parts sched
          lister ckc rc ev tn tx).result
        ≠ Except.error (HiveError.tooManyPartitions c l)) ∧
    (∀ r, sched.Perm parts →
      (prepareReadContextM maxPartitionsToRead uck ibt inputFormat ns parts sched
          lister ckc rc ev tn tx).result = Except.ok r →
      ((prepareReadContextM maxPartitionsToRead uck ibt inputFormat ns parts sched
          lister ckc rc ev tn tx).listed).Perm parts) := by
  refine ⟨?_, ?_, ?_⟩
  · intro h1 h2
    have hexc : exceedsPartitionLimit maxPartitionsToRead parts.length = true := by
      simp [exceedsPartitionLimit, h1, h2]
    simp [prepareReadContextM, hexc]
  · intro c l
    have hexc : exceedsPartitionLimit 0 parts.length = false := by
      simp [exceedsPartitionLimit]
    cases hfmt : getDirectoryLister inputFormat with
    | error e =>
      simp only [prepareReadContextM, hexc, Bool.false_eq_true, if_false, hfmt]
      intro hc
      have he : e = HiveError.tooManyPartitions c l := by injection hc
      exact getDirectoryLister_no_partition_error inputFormat c l (by rw [hfmt, he])
    | ok fmt =>
      simp [prepareReadContextM, hexc, hfmt]
  · intro r hperm hok
    cases hexc : exceedsPartitionLimit maxPartitionsToRead parts.length with
    | true => simp [prepareReadContextM, hexc] at hok
    | false =>
      cases hfmt : getDirectoryLister inputFormat with
      | error e => simp [prepareReadContextM, hexc, hfmt] at hok
      | ok fmt =>
        simp only [prepareReadContextM, hexc, Bool.false_eq_true, if_false, hfmt]
        unfold listedPartitions
        by_cases hseq : sequentialListing ns parts = true
        · rw [if_pos hseq]
        · rw [if_neg hseq]
          exact hperm

/-- C5 (witness). -/
theorem claim_C5_witness :
    (prepareReadContextM 1 false false "org.apache.hadoop.hive.ql.io.orc.OrcInputFormat"
        1 ([10, 20] : List Nat) [20, 10] (fun _ _ => []) none [] (fun _ => 0)
        "t" "7").result
      = Except.error (HiveError.tooManyPartitions 2 1) ∧
    ((prepareReadContextM 0 false false "org.apache.hadoop.hive.ql.io.orc.OrcInputFormat"
        1 ([10, 20] : List Nat) [20, 10] (fun _ _ => []) none [] (fun _ => 0)
        "t" "7").listed).Perm [10, 20] :=
  ⟨(claim_C5 Nat 1 false false "org.apache.hadoop.hive.ql.io.orc.OrcInputFormat"
      1 [10, 20] [20, 10] (fun _ _ => []) none [] (fun _ => 0) "t" "7").1
      (by decide) (by decide),
    (claim_C5 Nat 0 false false "org.apache.hadoop.hive.ql.io.orc.OrcInputFormat"
      1 [10, 20] [20, 10] (fun _ _ => []) none [] (fun _ => 0) "t" "7").2.2
      ([], "t" ++ "_" ++ "7") (by decide) (by decide)⟩

/-- C10: when the partition-count ceiling is exceeded, `prepareReadContext`
fails before the directory lister is even constructed (the input-format
string is arbitrary here, valid or not), no partition listing has run, and
nothing has been registered with the execution resource context. -/
theorem claim_C10 (π : Type) (maxPartitionsToRead : Nat) (uck ibt : Bool)
    (inputFormat : String) (ns : Nat) (parts sched : List π)
    (lister : FileFormat → π → List (List Char)) (ckc : Option HAst)
    (rc : List String) (ev : Bindings → Nat) (tn tx : String)
    (h1 : 0 < maxPartitionsToRead) (h2 : maxPartitionsToRead < parts.length) :
    prepareReadContextM maxPartitionsToRead uck ibt inputFormat ns parts sched
        lister ckc rc ev tn tx
      = { result := Except.error
            (HiveError.tooManyPartitions parts.length maxPartitionsToRead)
          listed := []
          registered := none } := by
  have hexc : exceedsPartitionLimit maxPartitionsToRead parts.length = true := by
    simp [exceedsPartitionLimit, h1, h2]
  simp [prepareReadContextM, hexc]

/-- C10 (witness): the format string is not even a recognized one, yet the
error is the partition-limit error and the trace is empty. -/
theorem claim_C10_witness :
    prepareReadContextM 1 false false "not_a_real_format" 4 ([10, 20] : List Nat)
        [20, 10] (fun _ _ => [['a']]) none [] (fun _ => 0) "t" "7"
      = { result := Except.error (HiveError.tooManyPartitions 2 1)
          listed := []
          registered := none } :=
  claim_C10 Nat 1 false false "not_a_real_format" 4 [10, 20] [20, 10]
    (fun _ _ => [['a']]) none [] (fun _ => 0) "t" "7" (by decide) (by decide)

end CnchHive
